import Mathlib

/-!
Verification development for the patch-windowing data pipeline in
`src/data.py` (XrDataset / XrConcatDataset / AugmentedDataset).

The qualitative data model is embedded shallowly:
* array cell values are rationals, with a distinguished non-finite
  sentinel (`Val.nan`) standing for IEEE NaN (no floating-point
  rounding is involved in any of the claims checked here);
* a source array is a function from per-axis integer coordinates
  (restricted to the windowed axes, `patch_dims`) to values;
* Python integer arithmetic (`//`, `%`) is `Int.fdiv` / `Int.emod`.
-/

/-- Cell value: a finite rational or the NaN sentinel used by the
pipeline for missing data (and produced by a zero/zero division in
reconstruction). -/
inductive Val where
  | num : ℚ → Val
  | nan : Val
deriving DecidableEq

/-- Model of numpy's isfinite on a cell value. -/
def Val.isFinite : Val → Bool
  | Val.num _ => true
  | Val.nan => false

/-- TrainingItem, the namedtuple ('input', 'tgt') of `data.py`,
with each field a flat list of cell values. -/
structure TrainingItem where
  input : List Val
  tgt : List Val
deriving DecidableEq

/-- One windowed axis of an XrDataset: source extent, patch size and
stride along this axis (the triple that `XrDataset.__init__` derives
from `da.shape`, `patch_dims` and `strides`). -/
structure PatchAxis where
  extent : Nat
  psize : Nat
  stride : Nat
deriving DecidableEq

/-- The per-axis window count expression from `XrDataset.__init__`:
`max((da_dims[dim] - patch_dims[dim]) // strides.get(dim, 1) + 1, 0)`,
with Python's floor division (`Int.fdiv`). -/
def window_count (extent psize stride : Int) : Int :=
  max ((extent - psize).fdiv stride + 1) 0

/-- The entry of `self.ds_size` for one axis, as a natural number
(the Python value is always a nonnegative int thanks to the `max`). -/
def dsSizeNat (a : PatchAxis) : Nat :=
  (window_count a.extent a.psize a.stride).toNat

/-- Product of a list of window counts; `XrDataset.__len__` multiplies
the values of `ds_size` starting from 1. -/
def listProd : List Nat → Nat
  | [] => 1
  | c :: cs => c * listProd cs

/-- Mixed-radix decomposition of a linear index over an ordered list of
window counts, C-order (last axis fastest), as computed by
`np.unravel_index(item, tuple(self.ds_size.values()))` for an in-range
index. -/
def unravelAux : Nat → List Nat → List Nat
  | _, [] => []
  | i, _c :: cs => (i / listProd cs) :: unravelAux (i % listProd cs) cs

/-- Row-major recomposition of per-axis offsets into a linear index
(the inverse of `unravelAux`). -/
def ravelMulti : List Nat → List Nat → Nat
  | d :: ds, _c :: cs => d * listProd cs + ravelMulti ds cs
  | _, _ => 0

/-- Validity of a per-axis offset vector against the ordered window
counts: same length, and each digit below its count. -/
def offsetsValid : List Nat → List Nat → Bool
  | [], [] => true
  | o :: os, c :: cs => decide (o < c) && offsetsValid os cs
  | _, _ => false

theorem listProd_pos {cs : List Nat} (h : ∀ c ∈ cs, 0 < c) : 0 < listProd cs := by
  induction cs with
  | nil => exact Nat.one_pos
  | cons c cs ih =>
      exact Nat.mul_pos (h c (List.mem_cons_self c cs))
        (ih fun x hx => h x (List.mem_cons_of_mem c hx))

theorem unravel_ravel (cs : List Nat) :
    ∀ i, i < listProd cs →
      ravelMulti (unravelAux i cs) cs = i ∧ offsetsValid (unravelAux i cs) cs = true := by
  induction cs with
  | nil =>
      intro i hi
      have : i = 0 := Nat.lt_one_iff.mp hi
      subst this
      exact ⟨rfl, rfl⟩
  | cons c cs ih =>
      intro i hi
      have hP : 0 < listProd cs := by
        rcases Nat.eq_zero_or_pos (listProd cs) with h0 | h0
        · rw [listProd, h0, Nat.mul_zero] at hi; exact absurd hi (Nat.not_lt_zero i)
        · exact h0
      have hmod : i % listProd cs < listProd cs := Nat.mod_lt i hP
      obtain ⟨hrav, hval⟩ := ih (i % listProd cs) hmod
      have hdig : i / listProd cs < c := by
        have : i < c * listProd cs := hi
        exact Nat.div_lt_of_lt_mul (by rw [Nat.mul_comm] at this; exact this)
      refine ⟨?_, ?_⟩
      · show i / listProd cs * listProd cs + ravelMulti (unravelAux (i % listProd cs) cs) cs = i
        rw [hrav, Nat.mul_comm (i / listProd cs) (listProd cs)]
        exact Nat.div_add_mod i (listProd cs)
      · show (decide (i / listProd cs < c) && offsetsValid (unravelAux (i % listProd cs) cs) cs) = true
        rw [hval, decide_eq_true hdig, Bool.and_self]

theorem ravel_unravel (cs : List Nat) :
    ∀ o, offsetsValid o cs = true →
      unravelAux (ravelMulti o cs) cs = o ∧ ravelMulti o cs < listProd cs := by
  induction cs with
  | nil =>
      intro o ho
      cases o with
      | nil => exact ⟨rfl, Nat.one_pos⟩
      | cons d ds => exact absurd ho (by simp [offsetsValid])
  | cons c cs ih =>
      intro o ho
      cases o with
      | nil => exact absurd ho (by simp [offsetsValid])
      | cons d ds =>
          have h1 : d < c ∧ offsetsValid ds cs = true := by
            have := ho
            simp only [offsetsValid, Bool.and_eq_true, decide_eq_true_eq] at this
            exact this
          obtain ⟨hrec, hlt⟩ := ih ds h1.2
          have hP : 0 < listProd cs := Nat.lt_of_le_of_lt (Nat.zero_le _) hlt
          have hv : ravelMulti (d :: ds) (c :: cs) = d * listProd cs + ravelMulti ds cs := rfl
          refine ⟨?_, ?_⟩
          · show (ravelMulti (d :: ds) (c :: cs)) / listProd cs ::
              unravelAux ((ravelMulti (d :: ds) (c :: cs)) % listProd cs) cs = d :: ds
            rw [hv]
            have hdiv : (d * listProd cs + ravelMulti ds cs) / listProd cs = d := by
              rw [Nat.mul_comm d (listProd cs), Nat.mul_add_div hP, Nat.div_eq_of_lt hlt,
                Nat.add_zero]
            have hmod : (d * listProd cs + ravelMulti ds cs) % listProd cs = ravelMulti ds cs := by
              rw [Nat.mul_comm d (listProd cs), Nat.mul_add_mod, Nat.mod_eq_of_lt hlt]
            rw [hdiv, hmod, hrec]
          · show d * listProd cs + ravelMulti ds cs < c * listProd cs
            calc d * listProd cs + ravelMulti ds cs
                < d * listProd cs + listProd cs := Nat.add_lt_add_left hlt _
              _ = (d + 1) * listProd cs := by rw [Nat.succ_mul]
              _ ≤ c * listProd cs := Nat.mul_le_mul_right _ (Nat.succ_le_of_lt h1.1)

theorem offsetsValid_counts_pos {o cs : List Nat} (h : offsetsValid o cs = true) :
    ∀ c ∈ cs, 0 < c := by
  induction cs generalizing o with
  | nil => intro c hc; exact absurd hc (List.not_mem_nil c)
  | cons c cs ih =>
      cases o with
      | nil => exact absurd h (by simp [offsetsValid])
      | cons d ds =>
          simp only [offsetsValid, Bool.and_eq_true, decide_eq_true_eq] at h
          intro x hx
          rcases List.mem_cons.mp hx with h1 | h2
          · subst h1; exact Nat.lt_of_le_of_lt (Nat.zero_le d) h.1
          · exact ih h.2 x h2

/-- Errors surfaced by the pipeline: Python `KeyError` (missing patch
dim in the array's dims), `IncompleteScanConfiguration`,
`DangerousDimOrdering`, the `IndexError`/`ValueError` family raised by
out-of-range indexing (`np.unravel_index`, `items[0]` on an empty
list), and `ZeroDivisionError` (`idx % 0` on an empty base dataset). -/
inductive DataError where
  | keyError : DataError
  | incompleteScan : DataError
  | dangerousDimOrdering : DataError
  | indexError : DataError
  | zeroDivision : DataError
deriving DecidableEq

/-- Boolean success test on an `Except` result. -/
def exceptOk {ε α : Type} : Except ε α → Bool
  | Except.ok _ => true
  | Except.error _ => false

/-- A patch view over the windowed axes of a source array: the ordered
windowed-axis configuration (extents from `da.shape`, sizes from
`patch_dims`, strides from `strides`) together with the source data
restricted to windowed-axis coordinates. -/
structure XrGrid where
  axes : List PatchAxis
  da : List Nat → ℚ

/-- The ordered window counts, `self.ds_size.values()`. -/
def counts (g : XrGrid) : List Nat :=
  g.axes.map dsSizeNat

/-- The value of `XrDataset.__len__`: the product of the window
counts. -/
def XrGrid.len (g : XrGrid) : Nat :=
  listProd (counts g)

/-- The global source coordinate of a patch-local cell: per axis
`stride * offset + local`, the slicing
`slice(stride*idx, stride*idx + patch_size)` of `__getitem__`. -/
def globalCell : List PatchAxis → List Nat → List Nat → List Nat
  | a :: as, o :: os, l :: ls => (a.stride * o + l) :: globalCell as os ls
  | _, _, _ => []

/-- The patch at (in-range) linear index `i`: a function from
patch-local coordinates to the sliced source values, the payload of
`XrDataset.__getitem__` (with no post-processing function). -/
def patchAt (g : XrGrid) (i : Nat) : List Nat → ℚ :=
  fun l => g.da (globalCell g.axes (unravelAux i (counts g)) l)

/-- Model of `XrDataset.__getitem__` (data mode, `postpro_fn=None`):
`np.unravel_index` rejects any linear index outside `[0, len)`
(negative included), then the source is sliced at the decoded
offsets. -/
def XrGrid.getitem (g : XrGrid) (i : Int) : Except DataError (List Nat → ℚ) :=
  if 0 ≤ i ∧ i < (g.len : Int) then Except.ok (patchAt g i.toNat)
  else Except.error DataError.indexError

/-- The windowed-axis coordinate labels of the patch at linear index
`i`: per axis the label range `[stride*offset, stride*offset +
patch_size)` (labels are identified with integer positions). This is
what `__getitem__` returns in coords mode. -/
def coordsAt (g : XrGrid) (i : Nat) : List (List Nat) :=
  List.zipWith (fun (a : PatchAxis) (o : Nat) => (List.range a.psize).map (fun l => a.stride * o + l))
    g.axes (unravelAux i (counts g))

/-- Model of `XrDataset.__getitem__` in coords mode
(`self.return_coords == True`): same index decoding, but the
coordinate record is returned. -/
def XrGrid.getitemCoords (g : XrGrid) (i : Int) : Except DataError (List (List Nat)) :=
  if 0 ≤ i ∧ i < (g.len : Int) then Except.ok (coordsAt g i.toNat)
  else Except.error DataError.indexError

/-- The collection loop of `XrDataset.get_coords`: append `f i` for
`i = s, s+1, ...` (`n` iterations); a raised error stops the loop and
the items gathered so far are kept — this is the effect of the
`finally: ... return coords` block, which swallows the exception. -/
def collectFrom {α : Type} (f : Nat → Except DataError α) : Nat → Nat → List α
  | _, 0 => []
  | s, Nat.succ n =>
      match f s with
      | Except.ok a => a :: collectFrom f (s + 1) n
      | Except.error _ => []

/-- Model of `XrDataset.get_coords`: collect the coords-mode items for
`i in range(len(self))`; the `finally` block both restores
`self.return_coords = False` (the second component) and returns the
gathered list even if an exception was raised mid-loop. -/
def get_coords (g : XrGrid) : List (List (List Nat)) × Bool :=
  (collectFrom (fun i => g.getitemCoords (i : Int)) 0 g.len, false)

/-- Per-axis window membership: if global coordinate `x` falls in this
axis's window at offset `o`, return the patch-local coordinate. -/
def localIn (a : PatchAxis) (o x : Nat) : Option Nat :=
  if a.stride * o ≤ x ∧ x < a.stride * o + a.psize then some (x - a.stride * o) else none

/-- Window membership across all axes: the patch-local coordinate
vector of global cell `x` in the window at offset vector `o`, if `x`
lies in that window. -/
def localsOf : List PatchAxis → List Nat → List Nat → Option (List Nat)
  | [], [], [] => some []
  | a :: as, o :: os, x :: xs =>
      match localIn a o x, localsOf as os xs with
      | some l, some ls => some (l :: ls)
      | _, _ => none
  | _, _, _ => none

/-- Validity of a global cell against the source extents. -/
def cellValid : List PatchAxis → List Nat → Bool
  | [], [] => true
  | a :: as, x :: xs => decide (x < a.extent) && cellValid as xs
  | _, _ => false

/-- The all-ones default weight of `reconstruct_from_items`
(`np.ones(patch_dims.values())`). -/
def onesW : List Nat → ℚ :=
  fun _ => 1

/-- Contribution of one (position, item) pair to the value accumulator
at global cell `x`: `item * weight` at the patch-local coordinate if
the pair's window covers `x`, else nothing. -/
def contribV (axes : List PatchAxis) (w : List Nat → ℚ) (x : List Nat)
    (p : List Nat × (List Nat → ℚ)) : ℚ :=
  match localsOf axes p.1 x with
  | some l => p.2 l * w l
  | none => 0

/-- Contribution of one (position, item) pair to the weight accumulator
(`count_da`) at global cell `x`. -/
def contribW (axes : List PatchAxis) (w : List Nat → ℚ) (x : List Nat)
    (p : List Nat × (List Nat → ℚ)) : ℚ :=
  match localsOf axes p.1 x with
  | some l => w l
  | none => 0

/-- The weighted-value accumulator cell after the reconstruction loop:
for each (position, item) pair whose window covers global cell `x`,
`item * weight` at the patch-local coordinate is added. -/
def accAt (axes : List PatchAxis) (w : List Nat → ℚ)
    (pairs : List (List Nat × (List Nat → ℚ))) (x : List Nat) : ℚ :=
  (pairs.map (contribV axes w x)).sum

/-- The weight accumulator cell after the reconstruction loop
(`count_da`). -/
def cntAt (axes : List PatchAxis) (w : List Nat → ℚ)
    (pairs : List (List Nat × (List Nat → ℚ))) (x : List Nat) : ℚ :=
  (pairs.map (contribW axes w x)).sum

/-- All window positions in enumeration order — the decoded offset
vectors of `get_coords` for `i in range(len(self))`. -/
def allPositions (cs : List Nat) : List (List Nat) :=
  (List.range (listProd cs)).map (fun i => unravelAux i cs)

/-- All patches of the view in enumeration order, the items obtained
from `get(0), ..., get(len()-1)`. -/
def allItems (g : XrGrid) : List (List Nat → ℚ) :=
  (List.range g.len).map (patchAt g)

/-- Model of `XrDataset.reconstruct_from_items`: `items[0]` raises on
an empty item list; otherwise items are zipped against the coords of
all window positions (Python's `zip` stops at the shorter sequence),
and each output cell is accumulator / count, where a zero count (cell
covered by no zipped window, hence also a zero accumulator under the
default weights) is the non-finite `0/0` sentinel. -/
def reconstruct_from_items (g : XrGrid) (items : List (List Nat → ℚ)) (w : List Nat → ℚ) :
    Except DataError (List Nat → Val) :=
  if items.isEmpty then Except.error DataError.indexError
  else
    Except.ok (fun x =>
      if cntAt g.axes w (List.zip (allPositions (counts g)) items) x = 0 then Val.nan
      else Val.num (accAt g.axes w (List.zip (allPositions (counts g)) items) x /
        cntAt g.axes w (List.zip (allPositions (counts g)) items) x))

/-- The value of `XrConcatDataset.__len__`: sum of member lengths. -/
def concatLen (dss : List XrGrid) : Nat :=
  (dss.map XrGrid.len).sum

/-- Model of `XrConcatDataset.reconstruct`: walk the member views in
order; each consumes `islice(items_iter, len(ds))` — i.e. the first
`min(len ds, remaining)` items of the stream — and reconstructs from
them; leftover items are dropped with the iterator. -/
def concatReconstruct (w : List Nat → ℚ) :
    List XrGrid → List (List Nat → ℚ) → Except DataError (List (List Nat → Val))
  | [], _ => Except.ok []
  | g :: gs, items =>
      match reconstruct_from_items g (items.take g.len) w with
      | Except.error e => Except.error e
      | Except.ok r =>
          match concatReconstruct w gs (items.drop g.len) with
          | Except.error e => Except.error e
          | Except.ok rs => Except.ok (r :: rs)

/-- The slice of the item stream handed to each member view is
nonempty: this is exactly the condition under which no
`reconstruct_from_items` call sees an empty list. -/
def slicesNonempty : List XrGrid → List (List Nat → ℚ) → Bool
  | [], _ => true
  | g :: gs, items =>
      decide (0 < g.len) && decide (0 < items.length) && slicesNonempty gs (items.drop g.len)

/-- Constructor inputs of `XrDataset`: the source array's dims (in
order) with their shape, the ordered `patch_dims` mapping and the
`strides` mapping. -/
structure XrInit where
  dims : List String
  shape : List Nat
  patch_dims : List (String × Nat)
  strides : List (String × Nat)

/-- Lookup of `da_dims[dim]` in `dict(zip(self.da.dims, self.da.shape))`;
`none` is Python's `KeyError`. -/
def lookupDim (dims : List String) (shape : List Nat) (d : String) : Option Nat :=
  ((dims.zip shape).find? (fun p => p.1 == d)).map (fun p => p.2)

/-- The stride for a dim, `self.strides.get(dim, 1)`. -/
def strideOf (strides : List (String × Nat)) (d : String) : Nat :=
  (((strides.find? (fun p => p.1 == d)).map (fun p => p.2)).getD 1)

/-- Resolution of the per-axis configuration during the `ds_size`
comprehension: each patch dim is looked up in the array's dims
(`none` if any is missing = `KeyError`). -/
def resolveAxes (ini : XrInit) : Option (List PatchAxis) :=
  ini.patch_dims.mapM (fun pd =>
    (lookupDim ini.dims ini.shape pd.1).map (fun e =>
      { extent := e, psize := pd.2, stride := strideOf ini.strides pd.1 }))

/-- Python `str.endswith`, on strings as character lists: the suffix of
the same length must be equal. -/
def endsWithList (s suf : List Char) : Bool :=
  decide (suf = s.drop (s.length - suf.length))

/-- The dimension-ordering test of `XrDataset.__init__`:
`'#'.join(da.dims).endswith('#'.join(list(patch_dims)))`, with the
strings modelled as character lists. -/
def dimOrderOk (ini : XrInit) : Bool :=
  endsWithList (List.intercalate ['#'] (ini.dims.map String.toList))
    (List.intercalate ['#'] ((ini.patch_dims.map (fun p => p.1)).map String.toList))

/-- Model of `XrDataset.__init__`: resolve the per-axis configuration
(`KeyError` if a patch dim is missing from the array), then, if
enabled, the full-scan check (`(shape - patch_size) % stride == 0`,
Python `%` = `Int.emod`) raising `IncompleteScanConfiguration`, then,
if enabled and `patch_dims` is nonempty (the check sits inside a loop
over `patch_dims`), the dimension-order string test raising
`DangerousDimOrdering`. -/
def mkXrDataset (ini : XrInit) (check_full_scan check_dim_order : Bool) :
    Except DataError (List PatchAxis) :=
  match resolveAxes ini with
  | none => Except.error DataError.keyError
  | some axes =>
      if check_full_scan &&
          axes.any (fun a => ((a.extent : Int) - (a.psize : Int)).emod (a.stride : Int) != 0) then
        Except.error DataError.incompleteScan
      else if check_dim_order && !ini.patch_dims.isEmpty && !dimOrderOk ini then
        Except.error DataError.dangerousDimOrdering
      else
        Except.ok axes

/-- The trailing dims of the source array, the segment the docstring
requires to "correspond to the patch dims in same order". -/
def trailingDims (ini : XrInit) : List String :=
  ini.dims.drop (ini.dims.length - ini.patch_dims.length)

/-- Model of `AugmentedDataset`: a base indexable collection of
training items (`inp_ds`), the augmentation factor, and the fixed
permutation table drawn at construction (`np.random.permutation`),
modelled as a function on base indices. -/
structure AugmentedDataset where
  base_len : Nat
  base_get : Nat → TrainingItem
  aug_factor : Nat
  perm : Nat → Nat

/-- The value of `AugmentedDataset.__len__`:
`len(inp_ds) * (aug_factor + 1)`. -/
def AugmentedDataset.len (ds : AugmentedDataset) : Nat :=
  ds.base_len * (ds.aug_factor + 1)

/-- Iterated permutation lookup, the loop
`for _ in range(idx // len): perm_idx = self.perm[perm_idx]`. -/
def applyPermN (perm : Nat → Nat) : Nat → Nat → Nat
  | 0, i => i
  | Nat.succ k, i => applyPermN perm k (perm i)

/-- The recombined input of `AugmentedDataset.__getitem__`:
`np.where(np.isfinite(perm_item.input), item.tgt,
np.full_like(item.tgt, np.nan))`. -/
def augInput (perm_item item : TrainingItem) : List Val :=
  List.zipWith (fun p t => if p.isFinite then t else Val.nan) perm_item.input item.tgt

/-- Model of `AugmentedDataset.__getitem__`: `idx % len(inp_ds)`
raises `ZeroDivisionError` on an empty base; otherwise
`tgt_idx = idx % n` (Python `%`, always in `[0, n)`), the permutation
is applied `idx // n` times (`range` of a negative count is empty,
hence `Int.toNat`), and the returned namedtuple keeps `item.tgt` and
replaces `input` with the recombination. No bound check occurs. -/
def AugmentedDataset.getitem (ds : AugmentedDataset) (idx : Int) :
    Except DataError TrainingItem :=
  if ds.base_len = 0 then Except.error DataError.zeroDivision
  else
    let n : Int := (ds.base_len : Int)
    let tgt_idx : Nat := (idx.emod n).toNat
    let reps : Nat := (idx.fdiv n).toNat
    let perm_idx : Nat := applyPermN ds.perm reps tgt_idx
    let item := ds.base_get tgt_idx
    let perm_item := ds.base_get perm_idx
    Except.ok { input := augInput perm_item item, tgt := item.tgt }

/-- Componentwise `x / psize`: the offsets of the unique window
covering global cell `x` in the non-overlapping (`stride = psize`)
regime. -/
def divOffsets : List PatchAxis → List Nat → List Nat
  | a :: as, x :: xs => x / a.psize :: divOffsets as xs
  | _, _ => []

/-- Componentwise `x % psize`: the patch-local coordinates of global
cell `x` in the non-overlapping regime. -/
def modLocals : List PatchAxis → List Nat → List Nat
  | a :: as, x :: xs => x % a.psize :: modLocals as xs
  | _, _ => []

theorem dsSizeNat_of_le (a : PatchAxis) (hpe : a.psize ≤ a.extent) :
    dsSizeNat a = (a.extent - a.psize) / a.stride + 1 := by
  unfold dsSizeNat window_count
  have hsub : (a.extent : Int) - (a.psize : Int) = ((a.extent - a.psize : Nat) : Int) := by
    omega
  rw [hsub, ← Int.ofNat_fdiv]
  have : (((a.extent - a.psize) / a.stride : Nat) : Int) + 1 =
      (((a.extent - a.psize) / a.stride + 1 : Nat) : Int) := by push_cast; ring
  rw [this, max_eq_left (by positivity), Int.toNat_ofNat]

/-- C6: the per-axis window count computed at construction equals
`max(floor((extent − patch_size) / stride) + 1, 0)` (with Python floor
division), is never negative, and is 0 whenever `patch_size > extent`. -/
theorem C6_window_count (a : PatchAxis) (_hp : 1 ≤ a.psize) (hs : 1 ≤ a.stride) :
    (dsSizeNat a : Int) = window_count (a.extent : Int) (a.psize : Int) (a.stride : Int) ∧
    0 ≤ window_count (a.extent : Int) (a.psize : Int) (a.stride : Int) ∧
    (a.extent < a.psize → dsSizeNat a = 0) := by
  have hnn : 0 ≤ window_count (a.extent : Int) (a.psize : Int) (a.stride : Int) :=
    le_max_right _ _
  refine ⟨Int.toNat_of_nonneg hnn, hnn, ?_⟩
  intro hlt
  have hneg : (a.extent : Int) - (a.psize : Int) < 0 := by
    have : (a.extent : Int) < (a.psize : Int) := Int.ofNat_lt.mpr hlt
    omega
  have hspos : (0 : Int) < (a.stride : Int) := by exact_mod_cast hs
  have hdivneg : ((a.extent : Int) - (a.psize : Int)).fdiv (a.stride : Int) < 0 :=
    Int.fdiv_neg' hneg hspos
  unfold dsSizeNat window_count
  rw [max_eq_right (by omega)]
  rfl

theorem C6_witness : dsSizeNat ⟨5, 7, 2⟩ = 0 :=
  (C6_window_count ⟨5, 7, 2⟩ (by decide) (by decide)).2.2 (by decide)

/-- C5: with the full-scan check enabled (and every patch dim present
in the array's dims), construction raises
`IncompleteScanConfiguration` if and only if some windowed axis has
`(extent − patch_size) mod stride ≠ 0` (Python `%`). -/
theorem C5_full_scan (ini : XrInit) (cdo : Bool) (axes : List PatchAxis)
    (hres : resolveAxes ini = some axes) :
    mkXrDataset ini true cdo = Except.error DataError.incompleteScan ↔
      ∃ a ∈ axes, ((a.extent : Int) - (a.psize : Int)).emod (a.stride : Int) ≠ 0 := by
  unfold mkXrDataset
  rw [hres]
  by_cases hany :
      axes.any (fun a => ((a.extent : Int) - (a.psize : Int)).emod (a.stride : Int) != 0) = true
  · simp only [hany, Bool.true_and, if_true]
    constructor
    · intro _
      obtain ⟨a, ha, hne⟩ := List.any_eq_true.mp hany
      exact ⟨a, ha, bne_iff_ne.mp hne⟩
    · intro _; trivial
  · simp only [hany, Bool.true_and, if_false]
    constructor
    · intro h
      by_cases hord : (cdo && !ini.patch_dims.isEmpty && !dimOrderOk ini) = true
      · rw [if_pos hord] at h
        exact absurd h (by simp)
      · rw [if_neg hord] at h
        exact absurd h (by simp)
    · intro ⟨a, ha, hne⟩
      have : axes.any
          (fun a => ((a.extent : Int) - (a.psize : Int)).emod (a.stride : Int) != 0) = true :=
        List.any_eq_true.mpr ⟨a, ha, bne_iff_ne.mpr hne⟩
      exact absurd this hany

theorem C5_witness :
    mkXrDataset ⟨["time"], [10], [("time", 3)], [("time", 2)]⟩ true false =
      Except.error DataError.incompleteScan ∧
    exceptOk (mkXrDataset ⟨["time"], [10], [("time", 3)], [("time", 7)]⟩ true false) = true := by
  constructor
  · exact (C5_full_scan ⟨["time"], [10], [("time", 3)], [("time", 2)]⟩ false
      [⟨10, 3, 2⟩] rfl).mpr ⟨⟨10, 3, 2⟩, by decide, by decide⟩
  · rfl

/-- C4 (code bug): the dimension-order check is a string-suffix test on
the `'#'`-joined dim names, so construction can succeed although the
trailing axes are not the patch dims: with dims `("a", "xa", "b")` and
patch dims `("a", "b")`, `"a#xa#b"` ends with `"a#b"` and no
`DangerousDimOrdering` is raised even though the trailing axes are
`("xa", "b")`. -/
theorem C4_dim_order_bug :
    exceptOk (mkXrDataset ⟨["a", "xa", "b"], [4, 4, 4], [("a", 2), ("b", 2)], []⟩ false true)
      = true ∧
    dimOrderOk ⟨["a", "xa", "b"], [4, 4, 4], [("a", 2), ("b", 2)], []⟩ = true ∧
    trailingDims ⟨["a", "xa", "b"], [4, 4, 4], [("a", 2), ("b", 2)], []⟩ ≠
      [("a", 2), ("b", 2)].map (fun p => p.1) := by
  refine ⟨by decide, by decide, by decide⟩

/-- Concrete augmented dataset used for C1: one base item whose input
and target differ. -/
def C1base : AugmentedDataset :=
  { base_len := 1
    base_get := fun _ => { input := [Val.num 1], tgt := [Val.num 2] }
    aug_factor := 2
    perm := fun i => i }

/-- C1 counterexample: for an in-range index (`0 < base_len`), the item
returned by `AugmentedDataset.__getitem__` is not the unmodified base
item — its input field is rebuilt from the target. -/
theorem C1_counterexample :
    AugmentedDataset.getitem C1base 0 =
      Except.ok { input := [Val.num 2], tgt := [Val.num 2] } ∧
    C1base.base_get 0 = { input := [Val.num 1], tgt := [Val.num 2] } ∧
    ({ input := [Val.num 2], tgt := [Val.num 2] } : TrainingItem) ≠
      { input := [Val.num 1], tgt := [Val.num 2] } := by
  refine ⟨rfl, rfl, ?_⟩
  decide

/-- C1 (amended): for `0 ≤ index < n` the permutation is applied zero
times (`index // n = 0`), and the returned item keeps the base target
but recombines the input with the base item itself:
`input = where(isfinite(base.input), base.tgt, nan)`. -/
theorem C1_amended (ds : AugmentedDataset) (idx : Int) (hn : 0 < ds.base_len)
    (h0 : 0 ≤ idx) (hlt : idx < (ds.base_len : Int)) :
    (idx.fdiv (ds.base_len : Int)).toNat = 0 ∧
    AugmentedDataset.getitem ds idx =
      Except.ok { input := augInput (ds.base_get idx.toNat) (ds.base_get idx.toNat),
                  tgt := (ds.base_get idx.toNat).tgt } := by
  have hne : ds.base_len ≠ 0 := Nat.pos_iff_ne_zero.mp hn
  have hfd : idx.fdiv (ds.base_len : Int) = 0 := by
    rw [Int.fdiv_eq_ediv idx (by positivity)]
    exact Int.ediv_eq_zero_of_lt h0 hlt
  have hmod : idx.emod (ds.base_len : Int) = idx := Int.emod_eq_of_lt h0 hlt
  refine ⟨by rw [hfd]; rfl, ?_⟩
  unfold AugmentedDataset.getitem
  rw [if_neg hne]
  simp only [hfd, hmod, Int.toNat_zero]
  rfl

theorem C1_witness :
    AugmentedDataset.getitem C1base 0 =
      Except.ok { input := augInput (C1base.base_get 0) (C1base.base_get 0),
                  tgt := (C1base.base_get 0).tgt } :=
  (C1_amended C1base 0 (by decide) (by decide) (by decide)).2

/-- Concrete augmented dataset used for C3: `base_len=5`, `k=2`,
`len=15` (the spec's own example sizes). -/
def C3aug : AugmentedDataset :=
  { base_len := 5
    base_get := fun _ => { input := [Val.num 1], tgt := [Val.num 2] }
    aug_factor := 2
    perm := fun i => i }

/-- Concrete one-axis patch view used in closed statements: extent 2,
patch size 1, stride 1 (`len = 2`). -/
def C3grid : XrGrid :=
  { axes := [⟨2, 1, 1⟩], da := fun _ => 0 }

/-- C3 counterexample: `AugmentedDataset.__getitem__` does not reject
the out-of-range index `len()` (= 15 here); `idx % n` wraps it and an
item is returned. -/
theorem C3_counterexample :
    AugmentedDataset.len C3aug = 15 ∧
    exceptOk (AugmentedDataset.getitem C3aug 15) = true := by
  exact ⟨rfl, rfl⟩

/-- C3 (amended): `XrDataset.__getitem__` rejects every linear index
outside `[0, len())` with an index error (never clamped or wrapped),
but `AugmentedDataset.__getitem__` never raises on a nonempty base —
any index, negative or `≥ len()`, is wrapped by `idx % n`. -/
theorem C3_amended :
    (∀ (g : XrGrid) (i : Int), i < 0 ∨ (g.len : Int) ≤ i →
      XrGrid.getitem g i = Except.error DataError.indexError) ∧
    (∀ (ds : AugmentedDataset), 0 < ds.base_len →
      ∀ idx : Int, exceptOk (AugmentedDataset.getitem ds idx) = true) := by
  constructor
  · intro g i hi
    unfold XrGrid.getitem
    rw [if_neg]
    intro ⟨h0, hlt⟩
    rcases hi with h | h
    · omega
    · omega
  · intro ds hn idx
    unfold AugmentedDataset.getitem
    rw [if_neg (Nat.pos_iff_ne_zero.mp hn)]
    rfl

theorem C3_witness :
    XrGrid.getitem C3grid (-1) = Except.error DataError.indexError ∧
    XrGrid.getitem C3grid 2 = Except.error DataError.indexError ∧
    exceptOk (AugmentedDataset.getitem C3aug 100) = true :=
  ⟨C3_amended.1 C3grid (-1) (Or.inl (by decide)),
   C3_amended.1 C3grid 2 (Or.inr (by decide)),
   C3_amended.2 C3aug (by decide) 100⟩

/-- Concrete one-member concat dataset used for C2: the single member
has `len = 2` but only one item is supplied. -/
def C2grid : XrGrid :=
  { axes := [⟨2, 1, 1⟩], da := fun _ => 0 }

/-- C2 counterexample: a flattened item stream of length 1 against a
total `len()` of 2 is reconstructed without any error — `islice` hands
the short stream to the member view and `zip` silently truncates. -/
theorem C2_counterexample :
    concatLen [C2grid] = 2 ∧
    exceptOk (concatReconstruct onesW [C2grid] [fun _ => (5 : ℚ)]) = true := by
  exact ⟨rfl, rfl⟩

/-- C2 (amended): `XrConcatDataset.reconstruct` does not validate the
item count. It raises exactly when some member view's allotted slice
of the stream is empty (the member has length 0 or the stream is
already exhausted, making `items[0]` fail); a short nonempty slice is
silently zip-truncated and excess items are silently dropped. -/
theorem C2_amended (w : List Nat → ℚ) (dss : List XrGrid) (items : List (List Nat → ℚ)) :
    exceptOk (concatReconstruct w dss items) = slicesNonempty dss items := by
  induction dss generalizing items with
  | nil => rfl
  | cons g gs ih =>
      show exceptOk (match reconstruct_from_items g (items.take g.len) w with
        | Except.error e => Except.error e
        | Except.ok r =>
            match concatReconstruct w gs (items.drop g.len) with
            | Except.error e => Except.error e
            | Except.ok rs => Except.ok (r :: rs)) =
        (decide (0 < g.len) && decide (0 < items.length) &&
          slicesNonempty gs (items.drop g.len))
      by_cases hempty : (items.take g.len).isEmpty = true
      · have h1 : reconstruct_from_items g (items.take g.len) w =
            Except.error DataError.indexError := by
          unfold reconstruct_from_items
          rw [if_pos hempty]
        rw [h1]
        have h2 : g.len = 0 ∨ items = [] := by
          rw [List.isEmpty_iff, List.take_eq_nil_iff] at hempty
          tauto
        rcases h2 with h | h
        · simp [exceptOk, h]
        · simp [exceptOk, h]
      · have h1 : ∃ r, reconstruct_from_items g (items.take g.len) w = Except.ok r := by
          unfold reconstruct_from_items
          rw [if_neg hempty]
          exact ⟨_, rfl⟩
        obtain ⟨r, hr⟩ := h1
        rw [hr]
        have h2 : 0 < g.len ∧ 0 < items.length := by
          rw [List.isEmpty_iff, List.take_eq_nil_iff] at hempty
          push_neg at hempty
          constructor
          · omega
          · rcases List.eq_nil_or_concat items with h | ⟨l, a, h⟩
            · exact absurd h hempty.2
            · subst h; simp
        rw [decide_eq_true h2.1, decide_eq_true h2.2, Bool.true_and, Bool.true_and]
        rw [← ih (items.drop g.len)]
        cases concatReconstruct w gs (items.drop g.len) with
        | error e => rfl
        | ok rs => rfl

theorem collectFrom_all_ok {α : Type} (f : Nat → Except DataError α) (gf : Nat → α) :
    ∀ n s, (∀ k, k < n → f (s + k) = Except.ok (gf (s + k))) →
      collectFrom f s n = (List.range n).map (fun k => gf (s + k)) := by
  intro n
  induction n with
  | zero => intro s _; rfl
  | succ n ih =>
      intro s h
      have h0 : f s = Except.ok (gf s) := by
        have := h 0 (Nat.succ_pos n)
        rwa [Nat.add_zero] at this
      show (match f s with
        | Except.ok a => a :: collectFrom f (s + 1) n
        | Except.error _ => []) = _
      rw [h0]
      have hrest : collectFrom f (s + 1) n = (List.range n).map (fun k => gf (s + 1 + k)) := by
        refine ih (s + 1) ?_
        intro k hk
        have h2 := h (k + 1) (Nat.succ_lt_succ hk)
        have h3 : s + (k + 1) = s + 1 + k := by omega
        rwa [h3] at h2
      rw [hrest, List.range_succ_eq_map, List.map_cons, List.map_map]
      refine congrArg₂ List.cons (by rw [Nat.add_zero]) ?_
      refine List.map_congr_left ?_
      intro k _
      show gf (s + 1 + k) = gf (s + (k + 1))
      rw [Nat.add_assoc, Nat.add_comm 1 k]

theorem collectFrom_stops_at_error {α : Type} (f : Nat → Except DataError α) (gf : Nat → α)
    (e : DataError) :
    ∀ j n s, j < n → (∀ k, k < j → f (s + k) = Except.ok (gf (s + k))) →
      f (s + j) = Except.error e →
      collectFrom f s n = (List.range j).map (fun k => gf (s + k)) := by
  intro j
  induction j with
  | zero =>
      intro n s hn _ herr
      rw [Nat.add_zero] at herr
      cases n with
      | zero => exact absurd hn (Nat.lt_irrefl 0)
      | succ n =>
          show (match f s with
            | Except.ok a => a :: collectFrom f (s + 1) n
            | Except.error _ => []) = _
          rw [herr]
          rfl
  | succ j ih =>
      intro n s hn hok herr
      cases n with
      | zero => exact absurd hn (Nat.not_lt_zero _)
      | succ n =>
          have h0 : f s = Except.ok (gf s) := by
            have := hok 0 (Nat.succ_pos j)
            rwa [Nat.add_zero] at this
          show (match f s with
            | Except.ok a => a :: collectFrom f (s + 1) n
            | Except.error _ => []) = _
          rw [h0]
          have hrest : collectFrom f (s + 1) n = (List.range j).map (fun k => gf (s + 1 + k)) := by
            refine ih n (s + 1) (Nat.lt_of_succ_lt_succ hn) ?_ ?_
            · intro k hk
              have h2 := hok (k + 1) (Nat.succ_lt_succ hk)
              have h3 : s + (k + 1) = s + 1 + k := by omega
              rwa [h3] at h2
            · have h3 : s + (j + 1) = s + 1 + j := by omega
              rwa [h3] at herr
          rw [hrest, List.range_succ_eq_map, List.map_cons, List.map_map]
          refine congrArg₂ List.cons (by rw [Nat.add_zero]) ?_
          refine List.map_congr_left ?_
          intro k _
          show gf (s + 1 + k) = gf (s + (k + 1))
          rw [Nat.add_assoc, Nat.add_comm 1 k]

/-- C10: `XrDataset.get_coords` never propagates an exception — the
`finally: ... return coords` block swallows any error raised by the
collection loop, returning the items gathered before the failure
(third conjunct, for an arbitrary fallible step function), and in
every case the `return_coords` flag is `False` on return (first
conjunct). On the actual view, where every index below `len()`
succeeds, the full coordinate list is returned (second conjunct). -/
theorem C10_get_coords (g : XrGrid) :
    (get_coords g).2 = false ∧
    (get_coords g).1 = (List.range g.len).map (fun i => coordsAt g i) ∧
    (∀ (α : Type) (f : Nat → Except DataError α) (gf : Nat → α) (e : DataError) (j n : Nat),
      j < n → (∀ k, k < j → f k = Except.ok (gf k)) → f j = Except.error e →
      collectFrom f 0 n = (List.range j).map gf) := by
  refine ⟨rfl, ?_, ?_⟩
  · show collectFrom (fun i => g.getitemCoords (i : Int)) 0 g.len = _
    have hok : ∀ k, k < g.len → g.getitemCoords ((0 + k : Nat) : Int) =
        Except.ok (coordsAt g (0 + k)) := by
      intro k hk
      rw [Nat.zero_add]
      unfold XrGrid.getitemCoords
      rw [if_pos ⟨Int.ofNat_nonneg k, Int.ofNat_lt.mpr hk⟩]
      rw [Int.toNat_ofNat]
    have := collectFrom_all_ok (fun i => g.getitemCoords (i : Int)) (fun i => coordsAt g i)
      g.len 0 hok
    rw [this]
    refine List.map_congr_left ?_
    intro k _
    rw [Nat.zero_add]
  · intro α f gf e j n hj hok herr
    have h1 : ∀ k, k < j → f (0 + k) = Except.ok (gf (0 + k)) := by
      intro k hk
      rw [Nat.zero_add]
      exact hok k hk
    have h2 : f (0 + j) = Except.error e := by rw [Nat.zero_add]; exact herr
    have := collectFrom_stops_at_error f gf e j n 0 hj h1 h2
    rw [this]
    refine List.map_congr_left ?_
    intro k _
    rw [Nat.zero_add]

/-- Concrete fallible step used in the C10 witness: succeeds at index
0, fails at every later index. -/
def C10step : Nat → Except DataError Nat :=
  fun i => if i = 0 then Except.ok 10 else Except.error DataError.indexError

theorem C10_witness :
    (get_coords C3grid).2 = false ∧
    collectFrom C10step 0 3 = [10] := by
  refine ⟨(C10_get_coords C3grid).1, ?_⟩
  have := (C10_get_coords C3grid).2.2 Nat C10step (fun _ => 10) DataError.indexError 1 3
    (by decide)
    (by
      intro k hk
      have hk0 : k = 0 := Nat.lt_one_iff.mp hk
      subst hk0
      rfl)
    rfl
  simpa using this

/-- C9: for a valid configuration (`patch_size ≤ extent`, positive
stride, full scan), decoding the linear indices `0 .. total−1` over
the ordered window counts is a bijection onto the valid per-axis
offset combinations; the inverse is the row-major recomposition (last
axis fastest), so every valid offset vector is visited exactly once.
The first conjunct records that each window count then equals
`(extent − patch_size) // stride + 1`. -/
theorem C9_decode_bijection (axes : List PatchAxis)
    (hcfg : ∀ a ∈ axes, 1 ≤ a.stride ∧ 1 ≤ a.psize ∧ a.psize ≤ a.extent ∧
      ((a.extent : Int) - (a.psize : Int)).emod (a.stride : Int) = 0) :
    (∀ a ∈ axes, dsSizeNat a = (a.extent - a.psize) / a.stride + 1) ∧
    (∀ i, i < listProd (axes.map dsSizeNat) →
      offsetsValid (unravelAux i (axes.map dsSizeNat)) (axes.map dsSizeNat) = true ∧
      ravelMulti (unravelAux i (axes.map dsSizeNat)) (axes.map dsSizeNat) = i) ∧
    (∀ o, offsetsValid o (axes.map dsSizeNat) = true →
      ∃! i, i < listProd (axes.map dsSizeNat) ∧ unravelAux i (axes.map dsSizeNat) = o) := by
  refine ⟨?_, ?_, ?_⟩
  · intro a ha
    exact dsSizeNat_of_le a (hcfg a ha).2.2.1
  · intro i hi
    obtain ⟨hrav, hval⟩ := unravel_ravel (axes.map dsSizeNat) i hi
    exact ⟨hval, hrav⟩
  · intro o ho
    obtain ⟨hdec, hlt⟩ := ravel_unravel (axes.map dsSizeNat) o ho
    refine ⟨ravelMulti o (axes.map dsSizeNat), ⟨hlt, hdec⟩, ?_⟩
    intro i ⟨hi, hdi⟩
    obtain ⟨hrav, _⟩ := unravel_ravel (axes.map dsSizeNat) i hi
    rw [← hrav, hdi]

theorem C9_witness :
    ∃! i, i < listProd ([(⟨10, 2, 2⟩ : PatchAxis), ⟨6, 3, 3⟩].map dsSizeNat) ∧
      unravelAux i ([(⟨10, 2, 2⟩ : PatchAxis), ⟨6, 3, 3⟩].map dsSizeNat) = [3, 1] :=
  (C9_decode_bijection [⟨10, 2, 2⟩, ⟨6, 3, 3⟩] (by decide)).2.2 [3, 1] (by decide)

/-- C8: an output cell covered by no (position, item) pair of the
reconstruction accumulates a zero weight count and is returned as the
`0/0` NaN sentinel; reconstruction succeeds (it neither raises on such
cells nor coerces them to zero). With `items` a proper prefix of the
window positions this is exactly the untouched-cell property. -/
theorem C8_uncovered (g : XrGrid) (items : List (List Nat → ℚ)) (x : List Nat)
    (hne : items ≠ [])
    (hcov : ∀ pr ∈ List.zip (allPositions (counts g)) items, localsOf g.axes pr.1 x = none) :
    cntAt g.axes onesW (List.zip (allPositions (counts g)) items) x = 0 ∧
    ∃ r, reconstruct_from_items g items onesW = Except.ok r ∧ r x = Val.nan := by
  have hcnt : cntAt g.axes onesW (List.zip (allPositions (counts g)) items) x = 0 := by
    refine List.sum_eq_zero ?_
    intro v hv
    obtain ⟨pr, hpr, hveq⟩ := List.mem_map.mp hv
    rw [← hveq]
    unfold contribW
    rw [hcov pr hpr]
  refine ⟨hcnt, ?_⟩
  cases items with
  | nil => exact absurd rfl hne
  | cons it its =>
      refine ⟨_, rfl, ?_⟩
      show (if cntAt g.axes onesW (List.zip (allPositions (counts g)) (it :: its)) x = 0
        then Val.nan
        else Val.num (accAt g.axes onesW (List.zip (allPositions (counts g)) (it :: its)) x /
          cntAt g.axes onesW (List.zip (allPositions (counts g)) (it :: its)) x)) = Val.nan
      rw [if_pos hcnt]

/-- Concrete one-axis view used in the C8 witness: two window
positions; only the first is supplied, so cell 1 is untouched. -/
def C8grid : XrGrid :=
  { axes := [⟨2, 1, 1⟩], da := fun _ => 0 }

/-- The single supplied item of the C8 witness (the patch at position
0). -/
def C8items : List (List Nat → ℚ) :=
  [fun _ => 5]

theorem C8_witness :
    ∃ r, reconstruct_from_items C8grid C8items onesW = Except.ok r ∧ r [1] = Val.nan := by
  refine (C8_uncovered C8grid C8items [1] (List.cons_ne_nil _ _) ?_).2
  intro pr hpr
  have hz : List.zip (allPositions (counts C8grid)) C8items =
      [([0], fun _ => (5 : ℚ))] := rfl
  rw [hz] at hpr
  have hpr2 := List.mem_singleton.mp hpr
  subst hpr2
  decide

theorem cellValid_length {axes : List PatchAxis} {x : List Nat}
    (h : cellValid axes x = true) : x.length = axes.length := by
  induction axes generalizing x with
  | nil => cases x with
    | nil => rfl
    | cons y ys => exact absurd h (by simp [cellValid])
  | cons a as ih =>
      cases x with
      | nil => exact absurd h (by simp [cellValid])
      | cons y ys =>
          simp only [cellValid, Bool.and_eq_true] at h
          simp [ih h.2]

theorem dsSizeNat_nonoverlap (a : PatchAxis) (hs : a.stride = a.psize) (hp : 0 < a.psize)
    (hd : a.psize ∣ a.extent) : dsSizeNat a = a.extent / a.psize := by
  obtain ⟨k, hk⟩ := hd
  cases Nat.eq_zero_or_pos k with
  | inl h0 =>
      subst h0
      rw [Nat.mul_zero] at hk
      have hneg : (a.extent : Int) - (a.psize : Int) < 0 := by
        rw [hk]; simp; exact_mod_cast hp
      have hspos : (0 : Int) < (a.stride : Int) := by rw [hs]; exact_mod_cast hp
      have hdivneg : ((a.extent : Int) - (a.psize : Int)).fdiv (a.stride : Int) < 0 :=
        Int.fdiv_neg' hneg hspos
      unfold dsSizeNat window_count
      rw [max_eq_right (by omega), hk, Nat.zero_div]
      rfl
  | inr hkpos =>
      have hle : a.psize ≤ a.extent := by
        rw [hk]
        exact Nat.le_mul_of_pos_right a.psize hkpos
      rw [dsSizeNat_of_le a hle, hs]
      have h1 : a.extent - a.psize = a.psize * (k - 1) := by
        cases k with
        | zero => omega
        | succ k2 => rw [hk, Nat.mul_succ]; simp
      rw [h1, Nat.mul_div_cancel_left _ hp, hk, Nat.mul_div_cancel_left _ hp]
      omega

theorem localsOf_divOffsets (axes : List PatchAxis) (x : List Nat)
    (hax : ∀ a ∈ axes, a.stride = a.psize ∧ 0 < a.psize)
    (hlen : x.length = axes.length) :
    localsOf axes (divOffsets axes x) x = some (modLocals axes x) := by
  induction axes generalizing x with
  | nil =>
      cases x with
      | nil => rfl
      | cons y ys => simp at hlen
  | cons a as ih =>
      cases x with
      | nil => simp at hlen
      | cons y ys =>
          obtain ⟨hsp, hp⟩ := hax a (List.mem_cons_self a as)
          have hmlt : y % a.psize < a.psize := Nat.mod_lt y hp
          have hdm : a.psize * (y / a.psize) + y % a.psize = y := Nat.div_add_mod y a.psize
          simp only [divOffsets, modLocals, localsOf]
          rw [ih ys (fun b hb => hax b (List.mem_cons_of_mem a hb)) (by simpa using hlen)]
          unfold localIn
          rw [hsp, if_pos (⟨by omega, by omega⟩ :
            a.psize * (y / a.psize) ≤ y ∧ y < a.psize * (y / a.psize) + a.psize)]
          have hsub : y - a.psize * (y / a.psize) = y % a.psize := by omega
          rw [hsub]

theorem localsOf_unique (axes : List PatchAxis) :
    ∀ (o x l : List Nat), (∀ a ∈ axes, a.stride = a.psize ∧ 0 < a.psize) →
      localsOf axes o x = some l →
      o = divOffsets axes x ∧ l = modLocals axes x := by
  induction axes with
  | nil =>
      intro o x l _ hsome
      cases o with
      | nil =>
          cases x with
          | nil =>
              have h0 : ([] : List Nat) = l := by simpa [localsOf] using hsome
              exact ⟨rfl, h0.symm⟩
          | cons y ys => exact absurd hsome (by simp [localsOf])
      | cons o0 os =>
          cases x with
          | nil => exact absurd hsome (by simp [localsOf])
          | cons y ys => exact absurd hsome (by simp [localsOf])
  | cons a as ih =>
      intro o x l hax hsome
      obtain ⟨hsp, hp⟩ := hax a (List.mem_cons_self a as)
      cases o with
      | nil =>
          cases x with
          | nil => exact absurd hsome (by simp [localsOf])
          | cons y ys => exact absurd hsome (by simp [localsOf])
      | cons o0 os =>
          cases x with
          | nil => exact absurd hsome (by simp [localsOf])
          | cons y ys =>
              simp only [localsOf] at hsome
              cases hli : localIn a o0 y with
              | none => rw [hli] at hsome; exact absurd hsome (by simp)
              | some l0 =>
                  cases hlr : localsOf as os ys with
                  | none => rw [hli, hlr] at hsome; exact absurd hsome (by simp)
                  | some ls =>
                      rw [hli, hlr] at hsome
                      have hl : l0 :: ls = l := by simpa using hsome
                      unfold localIn at hli
                      by_cases hcond : a.stride * o0 ≤ y ∧ y < a.stride * o0 + a.psize
                      · rw [if_pos hcond] at hli
                        have hl0 : y - a.stride * o0 = l0 := by simpa using hli
                        obtain ⟨ho, hlrec⟩ := ih os ys ls
                          (fun b hb => hax b (List.mem_cons_of_mem a hb)) hlr
                        rw [hsp] at hcond hl0
                        have lo : o0 * a.psize ≤ y := by
                          rw [Nat.mul_comm]; exact hcond.1
                        have hi2 : y < (o0 + 1) * a.psize := by
                          rw [Nat.succ_mul, Nat.mul_comm o0 a.psize]; exact hcond.2
                        have ho0 : y / a.psize = o0 := Nat.div_eq_of_lt_le lo hi2
                        have hdm := Nat.div_add_mod y a.psize
                        rw [ho0] at hdm
                        have hmod : y % a.psize = l0 := by omega
                        constructor
                        · show o0 :: os = y / a.psize :: divOffsets as ys
                          rw [ho0, ho]
                        · show l = y % a.psize :: modLocals as ys
                          rw [hmod, ← hlrec, ← hl]
                      · rw [if_neg hcond] at hli
                        exact absurd hli (by simp)

theorem divOffsets_valid (axes : List PatchAxis) (x : List Nat)
    (hax : ∀ a ∈ axes, a.stride = a.psize ∧ 0 < a.psize ∧ a.psize ∣ a.extent)
    (hcv : cellValid axes x = true) :
    offsetsValid (divOffsets axes x) (axes.map dsSizeNat) = true := by
  induction axes generalizing x with
  | nil =>
      cases x with
      | nil => rfl
      | cons y ys => exact absurd hcv (by simp [cellValid])
  | cons a as ih =>
      cases x with
      | nil => exact absurd hcv (by simp [cellValid])
      | cons y ys =>
          obtain ⟨hsp, hp, hd⟩ := hax a (List.mem_cons_self a as)
          simp only [cellValid, Bool.and_eq_true, decide_eq_true_eq] at hcv
          simp only [divOffsets, List.map_cons, offsetsValid, Bool.and_eq_true,
            decide_eq_true_eq]
          constructor
          · rw [dsSizeNat_nonoverlap a hsp hp hd]
            exact Nat.div_lt_div_of_lt_of_dvd hd hcv.1
          · exact ih ys (fun b hb => hax b (List.mem_cons_of_mem a hb)) hcv.2

theorem globalCell_divmod (axes : List PatchAxis) (x : List Nat)
    (hax : ∀ a ∈ axes, a.stride = a.psize) (hlen : x.length = axes.length) :
    globalCell axes (divOffsets axes x) (modLocals axes x) = x := by
  induction axes generalizing x with
  | nil =>
      cases x with
      | nil => rfl
      | cons y ys => simp at hlen
  | cons a as ih =>
      cases x with
      | nil => simp at hlen
      | cons y ys =>
          have hsp := hax a (List.mem_cons_self a as)
          simp only [divOffsets, modLocals, globalCell]
          rw [ih ys (fun b hb => hax b (List.mem_cons_of_mem a hb)) (by simpa using hlen)]
          rw [hsp, Nat.div_add_mod y a.psize]

theorem sum_map_range_single (f : Nat → ℚ) (n i : Nat) (hi : i < n)
    (h : ∀ j, j < n → j ≠ i → f j = 0) :
    ((List.range n).map f).sum = f i := by
  induction n with
  | zero => exact absurd hi (Nat.not_lt_zero i)
  | succ n ih =>
      rw [List.range_succ, List.map_append, List.sum_append]
      by_cases hin : i = n
      · subst hin
        have hpre : ((List.range i).map f).sum = 0 := by
          refine List.sum_eq_zero ?_
          intro v hv
          obtain ⟨j, hj, hveq⟩ := List.mem_map.mp hv
          rw [← hveq]
          exact h j (Nat.lt_succ_of_lt (List.mem_range.mp hj))
            (Nat.ne_of_lt (List.mem_range.mp hj))
        rw [hpre]
        simp
      · have hi2 : i < n := by omega
        rw [ih hi2 (fun j hj hne => h j (Nat.lt_succ_of_lt hj) hne)]
        have hfn : f n = 0 := h n (Nat.lt_succ_self n) (fun heq => hin heq.symm)
        simp [hfn]

/-- C7: with stride equal to patch size on every windowed axis
(non-overlapping full scan), extracting all patches via
`get(0) .. get(len()-1)` and reconstructing with the default uniform
weight returns the source values exactly at every valid cell — no
averaging and no NaN. -/
theorem C7_roundtrip (g : XrGrid)
    (hax : ∀ a ∈ g.axes, a.stride = a.psize ∧ 0 < a.psize ∧ a.psize ∣ a.extent ∧ 0 < a.extent) :
    (∀ i, i < g.len → XrGrid.getitem g (i : Int) = Except.ok (patchAt g i)) ∧
    ∃ r, reconstruct_from_items g (allItems g) onesW = Except.ok r ∧
      ∀ x, cellValid g.axes x = true → r x = Val.num (g.da x) := by
  have hcpos : ∀ c ∈ counts g, 0 < c := by
    intro c hc
    obtain ⟨a, ha, hceq⟩ := List.mem_map.mp hc
    obtain ⟨hsp, hp, hd, hE⟩ := hax a ha
    rw [← hceq, dsSizeNat_nonoverlap a hsp hp hd]
    exact (Nat.one_le_div_iff hp).mpr (Nat.le_of_dvd hE hd)
  have hlen_pos : 0 < g.len := listProd_pos hcpos
  constructor
  · intro i hi
    unfold XrGrid.getitem
    rw [if_pos ⟨Int.ofNat_nonneg i, Int.ofNat_lt.mpr hi⟩, Int.toNat_ofNat]
  · have hne : ¬((allItems g).isEmpty = true) := by
      rw [List.isEmpty_iff]
      intro h
      have hl2 := congrArg List.length h
      simp only [allItems, List.length_map, List.length_range, List.length_nil] at hl2
      omega
    unfold reconstruct_from_items
    rw [if_neg hne]
    refine ⟨_, rfl, ?_⟩
    intro x hcv
    have hlenx : x.length = g.axes.length := cellValid_length hcv
    have hax2 : ∀ a ∈ g.axes, a.stride = a.psize ∧ 0 < a.psize :=
      fun a ha => ⟨(hax a ha).1, (hax a ha).2.1⟩
    have hax3 : ∀ a ∈ g.axes, a.stride = a.psize ∧ 0 < a.psize ∧ a.psize ∣ a.extent :=
      fun a ha => ⟨(hax a ha).1, (hax a ha).2.1, (hax a ha).2.2.1⟩
    have hax1 : ∀ a ∈ g.axes, a.stride = a.psize := fun a ha => (hax a ha).1
    have hoval : offsetsValid (divOffsets g.axes x) (counts g) = true :=
      divOffsets_valid g.axes x hax3 hcv
    obtain ⟨hdec, hilt⟩ := ravel_unravel (counts g) (divOffsets g.axes x) hoval
    set istar := ravelMulti (divOffsets g.axes x) (counts g) with histar
    have hsome : localsOf g.axes (divOffsets g.axes x) x = some (modLocals g.axes x) :=
      localsOf_divOffsets g.axes x hax2 hlenx
    have hzip : List.zip (allPositions (counts g)) (allItems g) =
        (List.range g.len).map (fun i => (unravelAux i (counts g), patchAt g i)) := by
      show List.zip ((List.range (listProd (counts g))).map (fun i => unravelAux i (counts g)))
        ((List.range g.len).map (patchAt g)) = _
      exact List.zip_map' _ _ _
    have hFnone : ∀ j, j < g.len → j ≠ istar →
        localsOf g.axes (unravelAux j (counts g)) x = none := by
      intro j hj hne2
      cases hlj : localsOf g.axes (unravelAux j (counts g)) x with
      | none => rfl
      | some l =>
          obtain ⟨hoj, _⟩ := localsOf_unique g.axes (unravelAux j (counts g)) x l hax2 hlj
          obtain ⟨hravj, _⟩ := unravel_ravel (counts g) j hj
          rw [hoj] at hravj
          have hji : j = istar := by rw [histar]; exact hravj.symm
          exact absurd hji hne2
    have hcnt : cntAt g.axes onesW (List.zip (allPositions (counts g)) (allItems g)) x = 1 := by
      unfold cntAt
      rw [hzip, List.map_map]
      refine (sum_map_range_single _ g.len istar hilt ?_).trans ?_
      · intro j hj hne2
        show contribW g.axes onesW x (unravelAux j (counts g), patchAt g j) = 0
        unfold contribW
        rw [hFnone j hj hne2]
      · show contribW g.axes onesW x (unravelAux istar (counts g), patchAt g istar) = 1
        unfold contribW
        rw [hdec, hsome]
        rfl
    have hacc : accAt g.axes onesW (List.zip (allPositions (counts g)) (allItems g)) x =
        g.da x := by
      unfold accAt
      rw [hzip, List.map_map]
      refine (sum_map_range_single _ g.len istar hilt ?_).trans ?_
      · intro j hj hne2
        show contribV g.axes onesW x (unravelAux j (counts g), patchAt g j) = 0
        unfold contribV
        rw [hFnone j hj hne2]
      · show contribV g.axes onesW x (unravelAux istar (counts g), patchAt g istar) = g.da x
        unfold contribV
        rw [hdec, hsome]
        show patchAt g istar (modLocals g.axes x) * 1 = g.da x
        rw [mul_one]
        unfold patchAt
        rw [hdec, globalCell_divmod g.axes x hax1 hlenx]
    show (if cntAt g.axes onesW (List.zip (allPositions (counts g)) (allItems g)) x = 0
      then Val.nan
      else Val.num (accAt g.axes onesW (List.zip (allPositions (counts g)) (allItems g)) x /
        cntAt g.axes onesW (List.zip (allPositions (counts g)) (allItems g)) x)) =
      Val.num (g.da x)
    rw [hcnt, hacc, if_neg one_ne_zero, div_one]

/-- Concrete non-overlapping view used in the C7 witness: one axis of
extent 4, patch size 2, stride 2; the source values are the cell
coordinates. -/
def C7grid : XrGrid :=
  { axes := [⟨4, 2, 2⟩], da := fun x => match x with | [j] => (j : ℚ) | _ => 0 }

theorem C7_witness :
    ∃ r, reconstruct_from_items C7grid (allItems C7grid) onesW = Except.ok r ∧
      r [3] = Val.num 3 := by
  obtain ⟨r, hr, hall⟩ := (C7_roundtrip C7grid (by decide)).2
  exact ⟨r, hr, hall [3] (by decide)⟩
